import Mathlib

/-!
# Verification of the procedural terrain mesh generator

Shallow embedding of the terrain-synthesis code in `src/src/main.rs`
(functions `interpolate_random_points`, `create_mountain_mesh`,
`toggle_texture`).  The Rust code works on `f32`; every arithmetic
operation appearing in the claims under scrutiny (corner selection,
fractional offsets, the cubic ease polynomial, the bilinear blend, UV
coordinates, negated collider heights) is modelled exactly over `ℚ`,
so the algebraic identities proved here are about the real-number
algebra the code implements.  Machine indices (`usize`, `u32`) are
modelled as `ℕ`; the panicking slice indexing of Rust is modelled by the
`Option`-valued variant of the interpolator.
-/

namespace ShaderGame

/-- The ease polynomial from `main.rs` line 198:
`|val: f32| 3.0 * (val * val * val) - 2.0 * val * val`, i.e.
`3·t³ − 2·t²` (note the exponents: cube on the `3·` term). -/
def s_polynomial (val : ℚ) : ℚ := 3 * (val * val * val) - 2 * (val * val)

/-- The ease curve as the specification states it: the smoothstep
polynomial `S(t) = 3t² − 2t³`.  Kept separate from `s_polynomial`
(which embeds the source) so the two can be compared. -/
def spec_smoothstep (t : ℚ) : ℚ := 3 * t ^ 2 - 2 * t ^ 3

/-- Function `interpolate_random_points` from `main.rs` lines 192–213, with the
lattice passed as a total accessor function.  Used by the
mesh-assembly embedding, whose lattice accesses are all in bounds
(see the C10 theorem), so totalising the accesses is sound there. -/
def interpolate_random_points (points : ℕ → ℕ → ℚ) (xi yi step : ℕ) : ℚ :=
  let rand_a := points (xi / step) (yi / step)
  let rand_b := points (xi / step + 1) (yi / step)
  let rand_c := points (xi / step) (yi / step + 1)
  let rand_d := points (xi / step + 1) (yi / step + 1)
  let rel_x : ℚ := ((xi - step * (xi / step) : ℕ) : ℚ) / (step : ℚ)
  let rel_y : ℚ := ((yi - step * (yi / step) : ℕ) : ℚ) / (step : ℚ)
  rand_a + (rand_b - rand_a) * s_polynomial rel_x
    + (rand_c - rand_a) * s_polynomial rel_y
    + (rand_a - rand_b - rand_c + rand_d) * s_polynomial rel_x * s_polynomial rel_y

/-- Function `interpolate_random_points` with the lattice as the nested vector
it is in the source (`Vec<Vec<f32>>`), returning `none` exactly where
the Rust code would panic: division `xi / interpolate_step` with
`interpolate_step == 0`, or any of the four slice accesses
`points[xi/step][yi/step]`, `points[xi/step + 1][yi/step]`,
`points[xi/step][yi/step + 1]`, `points[xi/step + 1][yi/step + 1]`
falling out of bounds. -/
def interpolate_random_points? (points : List (List ℚ)) (xi yi step : ℕ) : Option ℚ :=
  if step = 0 then none else
  match points[xi / step]?, points[xi / step + 1]? with
  | some row_lo, some row_hi =>
    match row_lo[yi / step]?, row_hi[yi / step]?,
          row_lo[yi / step + 1]?, row_hi[yi / step + 1]? with
    | some rand_a, some rand_b, some rand_c, some rand_d =>
      let rel_x : ℚ := ((xi - step * (xi / step) : ℕ) : ℚ) / (step : ℚ)
      let rel_y : ℚ := ((yi - step * (yi / step) : ℕ) : ℚ) / (step : ℚ)
      some (rand_a + (rand_b - rand_a) * s_polynomial rel_x
        + (rand_c - rand_a) * s_polynomial rel_y
        + (rand_a - rand_b - rand_c + rand_d) * s_polynomial rel_x * s_polynomial rel_y)
    | _, _, _, _ => none
  | _, _ => none

/-- Constant `x_max` from `create_mountain_mesh` (`main.rs` line 233). -/
def x_max : ℕ := 200

/-- Constant `interpolate_step` from `create_mountain_mesh` (line 234). -/
def interpolate_step : ℕ := 20

/-- Constant `y_max` from `create_mountain_mesh` (line 235). -/
def y_max : ℕ := 200

/-- Constant `last_index = (x_max * y_max) - 1` (line 236). -/
def last_index : ℕ := x_max * y_max - 1

/-- The nested push loop of `create_mountain_mesh`
(`for zi in 0..m { for xi in 0..n { buf.push(f xi zi) } }`):
the element for `(xi, zi)` ends up at flat position `zi * n + xi`. -/
def gridL {α : Type*} (m n : ℕ) (f : ℕ → ℕ → α) : List α :=
  (List.range m).flatMap fun zi => (List.range n).map fun xi => f xi zi

/-- The per-cell height `y` of `create_mountain_mesh` (lines 240–247):
base octave plus half-amplitude octave at doubled coordinates. -/
def mountain_height (points : ℕ → ℕ → ℚ) (xi zi : ℕ) : ℚ :=
  interpolate_random_points points xi zi interpolate_step
    + 1/2 * interpolate_random_points points (xi * 2) (zi * 2) interpolate_step

/-- Buffer `vertex_positions` as pushed by the nested loop (lines 251–255). -/
def vertex_positions (points : ℕ → ℕ → ℚ) : List (ℚ × ℚ × ℚ) :=
  gridL y_max x_max fun xi zi =>
    ((xi : ℚ) / (x_max : ℚ) * 4 - 2,
     mountain_height points xi zi,
     (zi : ℚ) / (y_max : ℚ) * 4 - 2)

/-- Buffer `collision_heights` as pushed by the nested loop (line 249):
the negated per-cell height, pushed in the same iteration as the
matching vertex. -/
def collision_heights (points : ℕ → ℕ → ℚ) : List ℚ :=
  gridL y_max x_max fun xi zi => -(mountain_height points xi zi)

/-- Buffer `uv_positions` as pushed by the nested loop (line 256). -/
def uv_positions : List (ℚ × ℚ) :=
  gridL y_max x_max fun xi zi => ((xi : ℚ) / (x_max : ℚ), (zi : ℚ) / (y_max : ℚ))

/-- The triangle indices the loop body emits for the quad anchored at
`(xi, zi)` (lines 259–276): two triples, guarded by
`index_down_right <= last_index`. -/
def quad_triangles (xi zi : ℕ) : List ℕ :=
  let index := xi * y_max + zi
  let index_right := (xi + 1) * y_max + zi
  let index_down := xi * y_max + zi + 1
  let index_down_right := (xi + 1) * y_max + zi + 1
  if index_down_right ≤ last_index then
    [index, index_right, index_down_right] ++ [index, index_down_right, index_down]
  else []

/-- The full `triangles` index buffer of `create_mountain_mesh`. -/
def triangles : List ℕ :=
  (List.range y_max).flatMap fun zi =>
    (List.range x_max).flatMap fun xi => quad_triangles xi zi

/-- Function `toggle_texture` from `main.rs` line 304:
`fn toggle_texture(mesh_to_change: &mut Mesh) {}` — the body is empty,
so as a transformer of the UV buffer of a mesh it is the identity. -/
def toggle_texture (mesh_uvs : List (ℚ × ℚ)) : List (ℚ × ℚ) := mesh_uvs

/-- The UV update the specification claims for the toggle
(`toggle_uv_band`): `if v + 0.5 < 1.0 then v + 0.5 else v - 0.5`,
stated from the words of the spec for comparison with `toggle_texture`. -/
def toggle_uv_band_spec (v : ℚ) : ℚ := if v + 1/2 < 1 then v + 1/2 else v - 1/2

/-- Map `toggle_uv_band_spec` over every coordinate of a UV buffer. -/
def toggle_uv_band_spec_buf (uvs : List (ℚ × ℚ)) : List (ℚ × ℚ) :=
  uvs.map fun p => (toggle_uv_band_spec p.1, toggle_uv_band_spec p.2)

/-! ## Helper lemmas about the grid traversal -/

theorem gridL_succ {α : Type*} (m n : ℕ) (f : ℕ → ℕ → α) :
    gridL (m + 1) n f = gridL m n f ++ ((List.range n).map fun xi => f xi m) := by
  simp [gridL, List.range_succ]

theorem gridL_length {α : Type*} (m n : ℕ) (f : ℕ → ℕ → α) :
    (gridL m n f).length = m * n := by
  induction m with
  | zero => simp [gridL]
  | succ m ih =>
    rw [gridL_succ, List.length_append, ih, List.length_map, List.length_range,
      Nat.succ_mul]

theorem gridL_getElem? {α : Type*} (m n xi zi : ℕ) (f : ℕ → ℕ → α)
    (hx : xi < n) (hz : zi < m) :
    (gridL m n f)[zi * n + xi]? = some (f xi zi) := by
  induction m with
  | zero => exact absurd hz (Nat.not_lt_zero zi)
  | succ m ih =>
    rw [gridL_succ]
    rcases Nat.lt_or_ge zi m with h | h
    · have hlt : zi * n + xi < (gridL m n f).length := by
        rw [gridL_length]
        have h1 : zi * n + xi < (zi + 1) * n := by rw [Nat.succ_mul]; omega
        have h2 : (zi + 1) * n ≤ m * n := Nat.mul_le_mul_right n (by omega)
        omega
      rw [List.getElem?_append_left hlt]
      exact ih h
    · have hzm : zi = m := by omega
      subst hzm
      have hge : (gridL zi n f).length ≤ zi * n + xi := by rw [gridL_length]; omega
      rw [List.getElem?_append_right hge, gridL_length]
      have hidx : zi * n + xi - zi * n = xi := by omega
      rw [hidx, List.getElem?_map, List.getElem?_range hx]
      rfl

theorem sum_range_if (k c a b : ℕ) :
    ((List.range k).map fun x => if x < c then a else b).sum
      = a * min c k + b * (k - min c k) := by
  induction k with
  | zero => simp
  | succ k ih =>
    rw [List.range_succ, List.map_append, List.sum_append, ih]
    by_cases h : k < c
    · have h1 : min c k = k := by omega
      have h2 : min c (k + 1) = k + 1 := by omega
      simp [h, h1, h2, Nat.mul_succ]
    · have h1 : min c k = c := by omega
      have h2 : min c (k + 1) = c := by omega
      have h3 : k + 1 - c = (k - c) + 1 := by omega
      simp [h, h1, h2, h3, Nat.mul_succ, Nat.add_assoc]

theorem quad_triangles_length (xi zi : ℕ) :
    (quad_triangles xi zi).length
      = if (xi + 1) * y_max + zi + 1 ≤ last_index then 6 else 0 := by
  by_cases h : (xi + 1) * y_max + zi + 1 ≤ last_index <;>
    simp [quad_triangles, h]

theorem row_triangles_length (zi : ℕ) (hz : zi < 200) :
    ((List.range x_max).flatMap fun xi => quad_triangles xi zi).length
      = 6 * ((39798 - zi) / 200 + 1) := by
  rw [List.length_flatMap]
  have h1 : ∀ xi ∈ List.range x_max,
      (List.length ∘ fun xi => quad_triangles xi zi) xi
        = if xi < (39798 - zi) / 200 + 1 then 6 else 0 := by
    intro xi _
    simp only [Function.comp_apply, quad_triangles_length]
    have hiff : ((xi + 1) * y_max + zi + 1 ≤ last_index)
        ↔ (xi < (39798 - zi) / 200 + 1) := by
      simp only [y_max, x_max, last_index]
      omega
    rw [if_congr hiff rfl rfl]
  rw [List.map_congr_left h1]
  simp only [x_max]
  rw [sum_range_if]
  have hle : (39798 - zi) / 200 + 1 ≤ 200 := by omega
  omega

theorem triangles_length : triangles.length = 238794 := by
  rw [triangles, List.length_flatMap]
  have h1 : ∀ zi ∈ List.range y_max,
      (List.length ∘ fun zi => (List.range x_max).flatMap fun xi => quad_triangles xi zi) zi
        = if zi < 199 then 1194 else 1188 := by
    intro zi hz
    rw [List.mem_range] at hz
    have hz200 : zi < 200 := by simpa [y_max] using hz
    simp only [Function.comp_apply]
    rw [row_triangles_length zi hz200]
    by_cases h : zi < 199 <;> simp only [h, if_true, if_false] <;> omega
  rw [List.map_congr_left h1]
  simp only [y_max]
  rw [sum_range_if]
  norm_num

theorem triangles_mem_lt (v : ℕ) (hv : v ∈ triangles) : v < 40000 := by
  rw [triangles, List.mem_flatMap] at hv
  obtain ⟨zi, hzi, hv⟩ := hv
  rw [List.mem_flatMap] at hv
  obtain ⟨xi, hxi, hv⟩ := hv
  simp only [quad_triangles, y_max, last_index, x_max] at hv
  split at hv
  · rename_i hguard
    simp only [List.cons_append, List.nil_append, List.mem_cons,
      List.not_mem_nil, or_false] at hv
    omega
  · simp at hv

theorem zero_mem_triangles : (0 : ℕ) ∈ triangles := by
  rw [triangles, List.mem_flatMap]
  refine ⟨0, by simp [y_max], ?_⟩
  rw [List.mem_flatMap]
  refine ⟨0, by simp [x_max], ?_⟩
  decide

theorem interpolate_eq_bilinear (points : List (List ℚ)) (xi yi step : ℕ)
    (hstep : 1 ≤ step) (row_lo row_hi : List ℚ) (a b c d : ℚ)
    (hlo : points[xi / step]? = some row_lo)
    (hhi : points[xi / step + 1]? = some row_hi)
    (ha : row_lo[yi / step]? = some a) (hb : row_hi[yi / step]? = some b)
    (hc : row_lo[yi / step + 1]? = some c) (hd : row_hi[yi / step + 1]? = some d) :
    interpolate_random_points? points xi yi step =
      some (a + (b - a) * s_polynomial (((xi % step : ℕ) : ℚ) / (step : ℚ))
        + (c - a) * s_polynomial (((yi % step : ℕ) : ℚ) / (step : ℚ))
        + (a - b - c + d) * s_polynomial (((xi % step : ℕ) : ℚ) / (step : ℚ))
          * s_polynomial (((yi % step : ℕ) : ℚ) / (step : ℚ))) := by
  have h0 : ¬step = 0 := by omega
  have hx : xi - step * (xi / step) = xi % step := by
    have := Nat.mod_add_div xi step
    omega
  have hy : yi - step * (yi / step) = yi % step := by
    have := Nat.mod_add_div yi step
    omega
  simp only [interpolate_random_points?, h0, if_false, hlo, hhi, ha, hb, hc, hd,
    hx, hy]

theorem interpolate_isSome (points : List (List ℚ)) (xi yi step : ℕ)
    (hstep : 1 ≤ step) (h1 : xi / step + 1 < points.length)
    (h2 : ∀ row ∈ points, yi / step + 1 < row.length) :
    (interpolate_random_points? points xi yi step).isSome := by
  have hlt0 : xi / step < points.length := by omega
  have hr0 := h2 _ (List.getElem_mem hlt0)
  have hr1 := h2 _ (List.getElem_mem h1)
  rw [interpolate_eq_bilinear points xi yi step hstep _ _ _ _ _ _
    (List.getElem?_eq_getElem hlt0) (List.getElem?_eq_getElem h1)
    (List.getElem?_eq_getElem (by omega)) (List.getElem?_eq_getElem (by omega))
    (List.getElem?_eq_getElem hr0) (List.getElem?_eq_getElem hr1)]
  rfl

/-! ## The claims -/

/-- C1 (code_bug): the spec says the ease curve applied to the
fractional offsets is smoothstep `S(t) = 3t² − 2t³`, but the
`s_polynomial` of the code computes `3t³ − 2t²` — the exponents are swapped, so
the curve is not the smooth blend that the source comment ("smoothly
interpolates") and the spec describe.  At the offset `t = 1/2` the
blend weight of the code is `−1/8`, where smoothstep gives `1/2`. -/
theorem c1_ease_curve_is_not_smoothstep :
    s_polynomial (1/2) = -(1/8) ∧ spec_smoothstep (1/2) = 1/2 ∧
      s_polynomial (1/2) ≠ spec_smoothstep (1/2) := by
  refine ⟨?_, ?_, ?_⟩ <;> norm_num [s_polynomial, spec_smoothstep]

/-- C2 (confirmed): whenever `step ≥ 1` and the four corner accesses
are in bounds, `interpolate_random_points` reads the corners
`a = lattice[xi/step][yi/step]`, `b = lattice[xi/step+1][yi/step]`,
`c = lattice[xi/step][yi/step+1]`, `d = lattice[xi/step+1][yi/step+1]`,
forms the offsets `rel_x = (xi mod step)/step`,
`rel_y = (yi mod step)/step`, and returns the standard bilinear form
`a + (b−a)S(rel_x) + (c−a)S(rel_y) + (a−b−c+d)S(rel_x)S(rel_y)` where
`S` is its ease polynomial `s_polynomial`. -/
theorem c2_bilinear_blend (points : List (List ℚ)) (xi yi step : ℕ)
    (hstep : 1 ≤ step) (row_lo row_hi : List ℚ) (a b c d : ℚ)
    (hlo : points[xi / step]? = some row_lo)
    (hhi : points[xi / step + 1]? = some row_hi)
    (ha : row_lo[yi / step]? = some a) (hb : row_hi[yi / step]? = some b)
    (hc : row_lo[yi / step + 1]? = some c) (hd : row_hi[yi / step + 1]? = some d) :
    interpolate_random_points? points xi yi step =
      some (a + (b - a) * s_polynomial (((xi % step : ℕ) : ℚ) / (step : ℚ))
        + (c - a) * s_polynomial (((yi % step : ℕ) : ℚ) / (step : ℚ))
        + (a - b - c + d) * s_polynomial (((xi % step : ℕ) : ℚ) / (step : ℚ))
          * s_polynomial (((yi % step : ℕ) : ℚ) / (step : ℚ))) :=
  interpolate_eq_bilinear points xi yi step hstep row_lo row_hi a b c d
    hlo hhi ha hb hc hd

/-- C2 witness: on the 2×2 lattice `[[1,2],[3,4]]` with `step = 2` at
`(xi, yi) = (1, 0)` the corners are `a=1, b=3, c=2, d=4`,
`rel_x = 1/2`, `rel_y = 0`, and the blend evaluates to
`1 + 2·s_polynomial(1/2) = 1 − 1/4 = 3/4`. -/
theorem c2_bilinear_blend_witness :
    interpolate_random_points? [[1, 2], [3, 4]] 1 0 2 = some (3/4) := by
  have h := c2_bilinear_blend [[1, 2], [3, 4]] 1 0 2 (by norm_num)
    [1, 2] [3, 4] 1 3 2 4 rfl rfl rfl rfl rfl rfl
  rw [h]
  norm_num [s_polynomial]

/-- C3 (counterexample): the claim places the vertex data of cell
`(xi, yi) = (1, 0)` at flat index `1 * y_max + 0 = 200`, but slot 200
of the UV buffer holds `(0/200, 1/200)` — the UV generated for cell
`(0, 1)` — not `(1/200, 0)`, the UV the loop generates for `(1, 0)`:
the emission order is the transpose of the index-buffer arithmetic. -/
theorem c3_counterexample :
    uv_positions[(1 * y_max + 0 : ℕ)]? =
      some (((0:ℕ) : ℚ) / (x_max : ℚ), ((1:ℕ) : ℚ) / (y_max : ℚ)) ∧
    (((0:ℕ) : ℚ) / (x_max : ℚ), ((1:ℕ) : ℚ) / (y_max : ℚ))
      ≠ (((1:ℕ) : ℚ) / (x_max : ℚ), ((0:ℕ) : ℚ) / (y_max : ℚ)) := by
  constructor
  · exact gridL_getElem? y_max x_max 0 1
      (fun xi zi => ((xi : ℚ) / (x_max : ℚ), (zi : ℚ) / (y_max : ℚ)))
      (by norm_num [x_max]) (by norm_num [y_max])
  · norm_num [Prod.ext_iff, x_max, y_max]

/-- C3 (amended): the nested loop runs `zi` (the `yi` of the claim) in the
OUTER loop and `xi` in the inner one, so the vertex, UV and collider
height generated for cell `(xi, yi)` are stored at flat index
`yi * x_max + xi` — the transpose of the `xi * y_max + yi` arithmetic
used to build the triangle index buffer (the two agree only when
`xi = yi`; because `x_max = y_max`, index-buffer entries still address
valid slots, but the emission traversal order is not the index
order of the index buffer). -/
theorem c3_vertex_storage_amended (points : ℕ → ℕ → ℚ) (xi zi : ℕ)
    (hx : xi < x_max) (hz : zi < y_max) :
    uv_positions[(zi * x_max + xi : ℕ)]? =
      some ((xi : ℚ) / (x_max : ℚ), (zi : ℚ) / (y_max : ℚ)) ∧
    (vertex_positions points)[(zi * x_max + xi : ℕ)]? =
      some ((xi : ℚ) / (x_max : ℚ) * 4 - 2, mountain_height points xi zi,
        (zi : ℚ) / (y_max : ℚ) * 4 - 2) ∧
    (collision_heights points)[(zi * x_max + xi : ℕ)]? =
      some (-(mountain_height points xi zi)) :=
  ⟨gridL_getElem? y_max x_max xi zi _ hx hz,
   gridL_getElem? y_max x_max xi zi _ hx hz,
   gridL_getElem? y_max x_max xi zi _ hx hz⟩

/-- C3 witness: the amended storage rule at cell `(1, 0)` with the
all-zero lattice. -/
theorem c3_vertex_storage_amended_witness :
    uv_positions[(0 * x_max + 1 : ℕ)]? =
      some (((1:ℕ) : ℚ) / (x_max : ℚ), ((0:ℕ) : ℚ) / (y_max : ℚ)) ∧
    (vertex_positions fun _ _ => 0)[(0 * x_max + 1 : ℕ)]? =
      some (((1:ℕ) : ℚ) / (x_max : ℚ) * 4 - 2, mountain_height (fun _ _ => 0) 1 0,
        ((0:ℕ) : ℚ) / (y_max : ℚ) * 4 - 2) ∧
    (collision_heights fun _ _ => 0)[(0 * x_max + 1 : ℕ)]? =
      some (-(mountain_height (fun _ _ => 0) 1 0)) :=
  c3_vertex_storage_amended (fun _ _ => 0) 1 0 (by norm_num [x_max])
    (by norm_num [y_max])

/-- C4 (counterexample): the quad anchored at `(xi, yi) = (0, 199)` is
emitted even though its `down` corners `(0, 200)` and `(1, 200)` lie
outside `[0,200)×[0,200)` (its triangles wrap to the next column), and
the index buffer holds 238794 entries (79598 triangles), not
`3·2·(x_max−1)·(y_max−1) = 237606`. -/
theorem c4_counterexample :
    quad_triangles 0 199 ≠ [] ∧ ¬(199 + 1 < y_max) ∧
    triangles.length ≠ 3 * (2 * (x_max - 1) * (y_max - 1)) := by
  refine ⟨by decide, by decide, ?_⟩
  rw [triangles_length]
  decide

/-- C4 (amended): a quad anchored at `(xi, yi)` emits its two
triangles iff its flat `index_down_right = (xi+1)*y_max + yi + 1` is
at most `last_index = x_max*y_max − 1`.  This guard is not a
per-corner range check: it also admits quads anchored in the last row
(`yi = y_max − 1`) for `xi < x_max − 1`, whose `down` corners wrap
around, so the total triangle count is `2·((x_max−1)·y_max − 1)`
(= 79598, i.e. 238794 index entries), not
`2·(x_max−1)·(y_max−1)`. -/
theorem c4_emission_guard_amended (xi zi : ℕ) (_hx : xi < x_max)
    (_hz : zi < y_max) :
    (quad_triangles xi zi ≠ [] ↔ (xi + 1) * y_max + zi + 1 ≤ x_max * y_max - 1) ∧
    triangles.length = 3 * (2 * ((x_max - 1) * y_max - 1)) := by
  constructor
  · simp only [quad_triangles, last_index]
    by_cases h : (xi + 1) * y_max + zi + 1 ≤ x_max * y_max - 1 <;> simp [h]
  · rw [triangles_length]
    norm_num [x_max, y_max]

/-- C4 witness: the amended emission rule at the quad `(0, 0)`. -/
theorem c4_emission_guard_amended_witness :
    ((quad_triangles 0 0 ≠ [] ↔ (0 + 1) * y_max + 0 + 1 ≤ x_max * y_max - 1) ∧
      triangles.length = 3 * (2 * ((x_max - 1) * y_max - 1))) :=
  c4_emission_guard_amended 0 0 (by norm_num [x_max]) (by norm_num [y_max])

/-- C5 (counterexample): for the quad anchored at `(0, 0)` the code
emits `[0, 200, 201] ++ [0, 201, 1]`, i.e. the triples
`(index, index_right, index_down_right)` and
`(index, index_down_right, index_down)`; the triples of the claim,
`(index, index_down_right, index_right) = (0, 201, 200)` and
`(index, index_down, index_down_right) = (0, 1, 201)` are the opposite
winding. -/
theorem c5_counterexample :
    quad_triangles 0 0 = [0, 200, 201, 0, 201, 1] ∧
    quad_triangles 0 0 ≠ [0, 201, 200] ++ [0, 1, 201] := by
  decide

/-- C5 (amended): every emitted quad produces exactly the two triples
`(index, index_right, index_down_right)` then
`(index, index_down_right, index_down)` — uniform winding across the
whole grid, but with the 2nd and 3rd vertices of the first triangle
(and the order of `index_down`/`index_down_right` in the second)
swapped relative to the claim. -/
theorem c5_winding_amended (xi zi : ℕ)
    (h : (xi + 1) * y_max + zi + 1 ≤ x_max * y_max - 1) :
    quad_triangles xi zi =
      [xi * y_max + zi, (xi + 1) * y_max + zi, (xi + 1) * y_max + zi + 1]
        ++ [xi * y_max + zi, (xi + 1) * y_max + zi + 1, xi * y_max + zi + 1] := by
  have h' : (xi + 1) * y_max + zi + 1 ≤ last_index := by rw [last_index]; exact h
  simp only [quad_triangles]
  rw [if_pos h']

/-- C5 witness: the amended winding at the quad `(0, 0)`. -/
theorem c5_winding_amended_witness :
    quad_triangles 0 0 =
      [0 * y_max + 0, (0 + 1) * y_max + 0, (0 + 1) * y_max + 0 + 1]
        ++ [0 * y_max + 0, (0 + 1) * y_max + 0 + 1, 0 * y_max + 0 + 1] :=
  c5_winding_amended 0 0 (by decide)

/-- C6 (code_bug): the spec (and the source comment, "Function
that changes the UV mapping of the mesh, to apply the other texture")
describe the banded UV update `v ↦ if v + 0.5 < 1.0 then v + 0.5 else
v − 0.5`, but the body of `toggle_texture` is empty — it changes
nothing.  On the UV buffer `[(0, 0)]` the code returns `[(0, 0)]`
while the claimed update returns `[(1/2, 1/2)]`. -/
theorem c6_toggle_texture_is_noop :
    toggle_texture [(0, 0)] = [(0, 0)] ∧
    toggle_uv_band_spec_buf [(0, 0)] = [(1/2, 1/2)] ∧
    toggle_texture [(0, 0)] ≠ toggle_uv_band_spec_buf [(0, 0)] := by
  refine ⟨rfl, ?_, ?_⟩
  · norm_num [toggle_uv_band_spec_buf, toggle_uv_band_spec]
  · norm_num [toggle_texture, toggle_uv_band_spec_buf, toggle_uv_band_spec,
      Prod.ext_iff]

/-- C7 (confirmed): `collision_heights.push(-y)` runs in the same loop
iteration that pushes the matching vertex, so for every flat index
`i < x_max*y_max` the collider height equals the negation of the
height component (the middle coordinate) of the `i`-th vertex — the
collider buffer is produced in exactly the traversal order of the mesh. -/
theorem c7_collider_matches_vertices (points : ℕ → ℕ → ℚ) (i : ℕ)
    (hi : i < x_max * y_max) :
    (collision_heights points)[i]? =
      ((vertex_positions points)[i]?).map fun p => -p.2.1 := by
  have hi' : i < 40000 := by simpa [x_max, y_max] using hi
  have hxm : i % 200 < x_max := by simp only [x_max]; omega
  have hzm : i / 200 < y_max := by simp only [y_max]; omega
  have hidx : i = i / 200 * x_max + i % 200 := by simp only [x_max]; omega
  rw [collision_heights, vertex_positions, hidx,
    gridL_getElem? y_max x_max (i % 200) (i / 200) _ hxm hzm,
    gridL_getElem? y_max x_max (i % 200) (i / 200) _ hxm hzm]
  rfl

/-- C7 witness: flat index 0 with the all-zero lattice. -/
theorem c7_collider_matches_vertices_witness :
    (collision_heights fun _ _ => 0)[(0:ℕ)]? =
      ((vertex_positions fun _ _ => 0)[(0:ℕ)]?).map fun p => -p.2.1 :=
  c7_collider_matches_vertices (fun _ _ => 0) 0 (by norm_num [x_max, y_max])

/-- C8 (confirmed): the emission guard bounds `index_down_right`, the
largest of the four flat indices of a quad, by `last_index`, so every value
in the triangle index buffer is `< x_max*y_max = 40000`, the length of
the vertex-position buffer: every index references an existing
vertex. -/
theorem c8_indices_reference_vertices (points : ℕ → ℕ → ℚ) (v : ℕ)
    (hv : v ∈ triangles) : v < (vertex_positions points).length := by
  have h := triangles_mem_lt v hv
  rw [vertex_positions, gridL_length]
  simp only [x_max, y_max]
  omega

/-- C8 witness: index value 0 (the first emitted index) with the
all-zero lattice. -/
theorem c8_indices_reference_vertices_witness :
    (0:ℕ) ∈ triangles ∧ 0 < (vertex_positions fun _ _ => 0).length :=
  ⟨zero_mem_triangles,
   c8_indices_reference_vertices (fun _ _ => 0) 0 zero_mem_triangles⟩

/-- C9 (confirmed): when `step` divides both `xi` and `yi` the
fractional offsets are 0, the ease polynomial maps 0 to 0 exactly, and
`interpolate_random_points` returns exactly the corner
`lattice[xi/step][yi/step]` (the code still reads all four corners, so
their accesses must be in bounds). -/
theorem c9_exact_at_lattice_points (points : List (List ℚ)) (xi yi step : ℕ)
    (hstep : 1 ≤ step) (hdx : step ∣ xi) (hdy : step ∣ yi)
    (row_lo row_hi : List ℚ) (a b c d : ℚ)
    (hlo : points[xi / step]? = some row_lo)
    (hhi : points[xi / step + 1]? = some row_hi)
    (ha : row_lo[yi / step]? = some a) (hb : row_hi[yi / step]? = some b)
    (hc : row_lo[yi / step + 1]? = some c) (hd : row_hi[yi / step + 1]? = some d) :
    interpolate_random_points? points xi yi step = some a := by
  rw [interpolate_eq_bilinear points xi yi step hstep row_lo row_hi a b c d
    hlo hhi ha hb hc hd]
  have hx0 : xi % step = 0 := by omega
  have hy0 : yi % step = 0 := by omega
  rw [hx0, hy0]
  norm_num [s_polynomial]

/-- C9 witness: on the lattice `[[5,6],[7,8]]` with `step = 3` at the
lattice point `(0, 0)` the interpolator returns exactly
`lattice[0][0] = 5`. -/
theorem c9_exact_at_lattice_points_witness :
    interpolate_random_points? [[5, 6], [7, 8]] 0 0 3 = some 5 :=
  c9_exact_at_lattice_points [[5, 6], [7, 8]] 0 0 3 (by norm_num)
    ⟨0, rfl⟩ ⟨0, rfl⟩ [5, 6] [7, 8] 5 7 6 8 rfl rfl rfl rfl rfl rfl

/-- C10 (confirmed): with the hard-coded parameters of
`create_mountain_mesh` (`x_max = y_max = 200`,
`interpolate_step = 20`, second octave at doubled coordinates
`≤ 398`), both interpolator calls of every loop iteration access
lattice rows and columns with index at most `398/20 + 1 = 20`, so on
the `1000×1000` lattice the function builds, no access is out of
bounds (the `Option`-valued embedding, which returns `none` exactly
where the Rust code would panic, always returns `some`). -/
theorem c10_lattice_accesses_in_bounds (points : List (List ℚ))
    (hlen : points.length = 1000) (hrows : ∀ row ∈ points, row.length = 1000)
    (xi zi : ℕ) (hx : xi < 200) (hz : zi < 200) :
    xi * 2 / interpolate_step + 1 ≤ 20 ∧ zi * 2 / interpolate_step + 1 ≤ 20 ∧
    (interpolate_random_points? points xi zi interpolate_step).isSome ∧
    (interpolate_random_points? points (xi * 2) (zi * 2) interpolate_step).isSome := by
  have hstep : (1:ℕ) ≤ interpolate_step := by norm_num [interpolate_step]
  refine ⟨?_, ?_, ?_, ?_⟩
  · simp only [interpolate_step]; omega
  · simp only [interpolate_step]; omega
  · exact interpolate_isSome points xi zi interpolate_step hstep
      (by rw [hlen]; simp only [interpolate_step]; omega)
      (fun row hrow => by rw [hrows row hrow]; simp only [interpolate_step]; omega)
  · exact interpolate_isSome points (xi * 2) (zi * 2) interpolate_step hstep
      (by rw [hlen]; simp only [interpolate_step]; omega)
      (fun row hrow => by rw [hrows row hrow]; simp only [interpolate_step]; omega)

/-- C10 witness: the worst-case cell `(199, 199)` on a concrete
`1000×1000` lattice. -/
theorem c10_lattice_accesses_in_bounds_witness :
    (199:ℕ) * 2 / interpolate_step + 1 ≤ 20 ∧
    (199:ℕ) * 2 / interpolate_step + 1 ≤ 20 ∧
    (interpolate_random_points?
      (List.replicate 1000 (List.replicate 1000 (0:ℚ))) 199 199
      interpolate_step).isSome ∧
    (interpolate_random_points?
      (List.replicate 1000 (List.replicate 1000 (0:ℚ))) (199 * 2) (199 * 2)
      interpolate_step).isSome :=
  c10_lattice_accesses_in_bounds _ (by rw [List.length_replicate])
    (fun row hrow => by rw [(List.mem_replicate.mp hrow).2, List.length_replicate])
    199 199 (by norm_num) (by norm_num)

end ShaderGame
